import Mathlib

/-!
Verification of the TTS voice-cloning operational scripts.

The Python scripts are shallowly embedded: strings become lists of
characters (filenames stay `String` where an ordering is needed),
per-item exceptions become `Option`, subprocess outcomes become an
inductive type, and audio waveforms become lists of rationals.
-/

/- ## Python string semantics on lists of characters -/

/-- Whitespace characters recognised by the Python `str.strip` and `str.split`
with no argument. -/
def isSpaceChar (c : Char) : Bool :=
  c == ' ' || c == '\t' || c == '\n' || c == '\r' || c == '\x0b' || c == '\x0c'

/-- Python `str.strip()`: remove leading and trailing whitespace. -/
def stripSpaces (l : List Char) : List Char :=
  ((l.dropWhile isSpaceChar).reverse.dropWhile isSpaceChar).reverse

/-- Helper for whitespace tokenisation; the accumulator holds the current
token reversed. -/
def tokensAux : List Char → List Char → List (List Char)
  | [], cur => if cur.isEmpty then [] else [cur.reverse]
  | c :: rest, cur =>
    if isSpaceChar c then
      if cur.isEmpty then tokensAux rest [] else cur.reverse :: tokensAux rest []
    else tokensAux rest (c :: cur)

/-- Python `str.split()` with no argument: maximal runs of non-whitespace. -/
def pyTokens (l : List Char) : List (List Char) := tokensAux l []

/-- Python `' '.join(...)` over tokens. -/
def joinSpaces : List (List Char) → List Char
  | [] => []
  | [t] => t
  | t :: rest => t ++ ' ' :: joinSpaces rest

/-- Suffix strictly after the first occurrence of `pat` (a nonempty pattern),
`none` when `pat` does not occur: the tail used by Python `s.split(pat)[1:]`. -/
def afterFirst (pat : List Char) : List Char → Option (List Char)
  | [] => none
  | c :: rest =>
    if pat.isPrefixOf (c :: rest) then some ((c :: rest).drop pat.length)
    else afterFirst pat rest

/-- Prefix before the first occurrence of `pat`; the whole list when `pat`
does not occur: Python `s.split(pat)[0]`. -/
def beforeFirst (pat : List Char) : List Char → List Char
  | [] => []
  | c :: rest =>
    if pat.isPrefixOf (c :: rest) then []
    else c :: beforeFirst pat rest

/-- Python `pat in s` substring test. -/
def containsSub (pat l : List Char) : Bool := (afterFirst pat l).isSome

/-- Python `s.split(pat)[1]`: the segment between the first and second
occurrence of `pat` (up to the end when there is no second occurrence);
`none` when there is no first occurrence (Python raises IndexError). -/
def segment1 (pat l : List Char) : Option (List Char) :=
  (afterFirst pat l).map (beforeFirst pat)

/-- Helper for `splitOnChar`; the accumulator holds the current field
reversed. -/
def splitOnCharAux (sep : Char) : List Char → List Char → List (List Char)
  | [], cur => [cur.reverse]
  | c :: rest, cur =>
    if c == sep then cur.reverse :: splitOnCharAux sep rest []
    else splitOnCharAux sep rest (c :: cur)

/-- Python `s.split(sep)` for a one-character separator (keeps empty fields). -/
def splitOnChar (sep : Char) (l : List Char) : List (List Char) :=
  splitOnCharAux sep l []

/- ## Data Validator: scripts/tools/validate_data.py -/

/-- Result of `validate_training_readiness`: the issue and warning lists it
accumulates and the boolean verdict `len(issues) == 0` it returns. -/
structure ReadinessResult where
  issues : List String
  warnings : List String
  ready : Bool

/-- `validate_training_readiness(df, audio_dir)`: `df` is the metadata rows
(filename, transcript); `wavCount` is the number of `.wav` files the audio
directory glob finds.  Mirrors the issue/warning accumulation of the source:
fewer than 50 rows is an error, 50-99 a warning, a metadata/audio count
mismatch an error, duplicated transcripts a warning; returns
`len(issues) == 0`. -/
def validate_training_readiness (df : List (String × String)) (wavCount : Nat) :
    ReadinessResult :=
  let n := df.length
  let issues0 : List String := if n < 50 then ["Insufficient data"] else []
  let warnings0 : List String :=
    if n < 50 then [] else if n < 100 then ["Limited data"] else []
  let issues1 := issues0 ++ (if wavCount = n then [] else ["Mismatch"])
  let dup := df.countP (fun r => 2 ≤ df.countP (fun s => s.2 == r.2))
  let warnings1 := warnings0 ++ (if dup = 0 then [] else ["Duplicate transcripts"])
  { issues := issues1, warnings := warnings1, ready := issues1.isEmpty }

/- ## Training Launcher: scripts/training/arm_max_quality_training.py -/

/-- Outcome of the spawned trainer subprocess as observed by the launcher:
it exited with a code, the operator interrupted the wait (KeyboardInterrupt),
or some other exception was raised. -/
inductive ProcOutcome where
  | exited : Int → ProcOutcome
  | interrupted : ProcOutcome
  | raised : ProcOutcome
deriving DecidableEq

/-- `start_maximum_quality_training`: returns `True` exactly on
`process.returncode == 0`; `KeyboardInterrupt` and any other exception
return `False`. -/
def start_maximum_quality_training : ProcOutcome → Bool
  | .exited c => c == 0
  | .interrupted => false
  | .raised => false

/-- `main()` of the launcher: the three validation steps gate the run and
its boolean result is the result of `start_maximum_quality_training`. -/
def launcher_main (envOk dataOk dirsOk : Bool) (o : ProcOutcome) : Bool :=
  if !envOk then false
  else if !dataOk then false
  else if !dirsOk then false
  else start_maximum_quality_training o

/-- `sys.exit(0 if success else 1)` at the bottom of the launcher script. -/
def launcher_exit (envOk dataOk dirsOk : Bool) (o : ProcOutcome) : Nat :=
  if launcher_main envOk dataOk dirsOk o then 0 else 1

/- ## Inference Driver: scripts/test_model.py and scripts/batch_synthesis_mac.py -/

/-- The per-text loop of `test_model_synthesis` (test_model.py): the `try`
wraps the whole loop, so the first text whose synthesis raises ends the loop
and the function returns `False`.  Each text is abstracted to a boolean:
`true` when its synthesis succeeds.  Returns
(function result, number of texts attempted, number of output files). -/
def test_model_synthesis_run : List Bool → Bool × Nat × Nat
  | [] => (true, 0, 0)
  | b :: rest =>
    if b then
      let r := test_model_synthesis_run rest
      (r.1, r.2.1 + 1, r.2.2 + 1)
    else (false, 1, 0)

/-- The per-text loop of `batch_synthesize` (batch_synthesis_mac.py): the
`try` is inside the loop, so every text is attempted.  `i` is the 1-based
index of the next text.  Returns (number attempted, indices that got an
output file). -/
def batch_synthesize_loop (i : Nat) : List Bool → Nat × List Nat
  | [] => (0, [])
  | b :: rest =>
    let r := batch_synthesize_loop (i + 1) rest
    (r.1 + 1, if b then i :: r.2 else r.2)

/-- `batch_synthesize` processes the whole batch starting at index 1. -/
def batch_synthesize_run (bs : List Bool) : Nat × List Nat :=
  batch_synthesize_loop 1 bs

/- ## Audio Preprocessor: scripts/process_audio.py -/

/-- `np.abs(audio).max()` over the waveform (0 on the empty waveform, which
the source never reaches: see `process_one`). -/
def peak (audio : List ℚ) : ℚ := audio.foldr (fun x m => max |x| m) 0

/-- The `-3dB` peak normalisation step: `audio * (0.707 / peak)` when the
peak is positive, the waveform unchanged otherwise. -/
def normalize_peak (audio : List ℚ) : List ℚ :=
  if 0 < peak audio then audio.map (fun x => x * ((707 : ℚ) / 1000 / peak audio))
  else audio

/-- `target_sample_rate = 22050` of process_audio.py. -/
def target_sample_rate : Nat := 22050

/-- A written output file: samples plus the rate passed to `sf.write`. -/
structure ProcessedAudio where
  samples : List ℚ
  sampleRate : Nat
deriving DecidableEq

/-- The per-file processing after load/resample/trim: peak-normalise and
write at the target rate.  `np.abs(audio).max()` raises on an empty
post-trim waveform, hence `none` there. -/
def process_one (audio : List ℚ) : Option ProcessedAudio :=
  if audio.isEmpty then none
  else some ⟨normalize_peak audio, target_sample_rate⟩

/-- The batch loop of `process_audio_files`: each input file is either the
post-trim waveform its load/resample/trim chain produced, or `none` when a
step raised; the `except` inside the loop skips the file and continues. -/
def process_audio_loop : List (String × Option (List ℚ)) → List (String × ProcessedAudio)
  | [] => []
  | (name, r) :: rest =>
    match r.bind process_one with
    | some out => (name, out) :: process_audio_loop rest
    | none => process_audio_loop rest

/-- `total_duration` accumulated over the successfully processed files. -/
def total_duration (files : List (String × Option (List ℚ))) : ℚ :=
  (process_audio_loop files).foldr
    (fun p acc => ((p.2.samples.length : ℚ) / (target_sample_rate : ℚ)) + acc) 0

/-- `process_audio_files`: the loop never aborts, but the final summary
divides by `len(audio_files)`, a ZeroDivisionError when the raw audio
directory holds no `.wav` file. -/
def process_audio_files (files : List (String × Option (List ℚ))) :
    Except String (List (String × ProcessedAudio) × ℚ) :=
  if files.isEmpty then Except.error "ZeroDivisionError"
  else Except.ok (process_audio_loop files, total_duration files / (files.length : ℚ))

/- ## Metadata Converter: scripts/fix_metadata.py -/

/-- Python `\w` word characters (ASCII model). -/
def isWordChar (c : Char) : Bool := c.isAlphanum || c == '_'

/-- The character class kept by `re.sub(r'[^\w\s.,!?-]', '', text)`. -/
def isAllowedChar (c : Char) : Bool :=
  isWordChar c || isSpaceChar c || c == '.' || c == ',' || c == '!' || c == '?' || c == '-'

/-- Helper for `re.sub(r'\s+', ' ', text)`: the boolean records whether the
previous character was whitespace. -/
def collapseWSAux : Bool → List Char → List Char
  | _, [] => []
  | prevSpace, c :: rest =>
    if isSpaceChar c then
      if prevSpace then collapseWSAux true rest
      else ' ' :: collapseWSAux true rest
    else c :: collapseWSAux false rest

/-- `re.sub(r'\s+', ' ', text)`: each maximal whitespace run becomes one
space. -/
def collapseWS (l : List Char) : List Char := collapseWSAux false l

/-- `clean_and_normalize_text`: drop disallowed characters, collapse
whitespace, strip. -/
def clean_and_normalize_text (t : List Char) : List Char :=
  stripSpaces (collapseWS (t.filter isAllowedChar))

/-- The pattern removed by `filename.replace('.wav', '')`. -/
def wavPat : List Char := ['.', 'w', 'a', 'v']

/-- Does the list start with `.wav`? -/
def isWavStart (l : List Char) : Bool :=
  match l with
  | a :: b :: c :: d :: _ => a == '.' && b == 'w' && c == 'a' && d == 'v'
  | _ => false

/-- Python `filename.replace('.wav', '')`: remove every (left-to-right,
non-overlapping) occurrence of `.wav`, not only a trailing extension. -/
def stripWavAll : List Char → List Char
  | [] => []
  | '.' :: 'w' :: 'a' :: 'v' :: rest => stripWavAll rest
  | c :: rest => c :: stripWavAll rest

/-- Does `.wav` occur anywhere in the list? -/
def hasWavOcc : List Char → Bool
  | [] => false
  | c :: rest => isWavStart (c :: rest) || hasWavOcc rest

/-- A well-formed audio filename: at least 4 characters, ends in `.wav`,
and the stem contains no further occurrence of `.wav`. -/
def goodWavName (l : List Char) : Bool :=
  decide (4 ≤ l.length) && (l.drop (l.length - 4) == wavPat)
    && !(hasWavOcc (l.take (l.length - 4)))

/-- Characters of an ordinary filename (letters, digits, dot, underscore,
dash): in particular no whitespace and no pipe. -/
def simpleChar (c : Char) : Bool := c.isAlphanum || c == '.' || c == '_' || c == '-'

/-- Every character of the name is a `simpleChar`. -/
def simpleName (l : List Char) : Bool := l.all simpleChar

/-- Python `line.split('|', 1)[0]`. -/
def beforeBar (l : List Char) : List Char := l.takeWhile (fun c => c != '|')

/-- Python `line.split('|', 1)[1]` (empty when there is no bar). -/
def afterBar (l : List Char) : List Char := (l.dropWhile (fun c => c != '|')).drop 1

/-- Python `'|' in line`. -/
def hasBar (l : List Char) : Bool := l.any (fun c => c == '|')

/-- The output row fix_metadata.py writes for one stripped input line:
`file_id|cleaned_text|cleaned_text` with `file_id = filename.replace('.wav', '')`. -/
def fixRow (l : List Char) : List Char :=
  let fn := beforeBar l
  let text := afterBar l
  stripWavAll fn ++ '|' :: clean_and_normalize_text text ++ '|' :: clean_and_normalize_text text

/-- The line loop of `main()` in fix_metadata.py: strip each line, skip it
unless it contains a bar, otherwise write one converted row. -/
def fixMetadataRows : List (List Char) → List (List Char)
  | [] => []
  | line :: rest =>
    let l := stripSpaces line
    if hasBar l then fixRow l :: fixMetadataRows rest else fixMetadataRows rest

/- ## Metadata Converter: scripts/tools/create_metadata.py -/

/-- The transcript clean-up of create_metadata.py:
`replace('\n', ' ').replace('\r', ' ')` then `' '.join(transcript.split())`. -/
def cleanTranscript (t : List Char) : List Char :=
  joinSpaces (pyTokens (t.map (fun c => if c == '\n' || c == '\r' then ' ' else c)))

/-- The `filename_to_text` dict built from the first 80 entries: later
duplicate filenames overwrite earlier ones. -/
def lookupTranscript (m : List (String × List Char)) (fn : String) : Option (List Char) :=
  ((m.filter (fun e => e.1 == fn)).getLast?).map (fun e => e.2)

/-- `create_metadata_from_json`: sort the globbed audio filenames, keep the
first 80 json entries, and write a `filename|transcript` row for every audio
file that has a transcript (files without one are only warned about). -/
def create_metadata_from_json (entries : List (String × List Char))
    (listing : List String) : List (String × List Char) :=
  let audio_files := List.insertionSort (fun a b : String => a ≤ b) listing
  let m := entries.take 80
  audio_files.filterMap (fun fn =>
    (lookupTranscript m fn).map (fun t => (fn, cleanTranscript t)))

/-- The lines of the metadata.csv written by create_metadata.py. -/
def createMetadataLines (entries : List (String × List Char))
    (listing : List String) : List (List Char) :=
  (create_metadata_from_json entries listing).map (fun e => e.1.toList ++ '|' :: e.2)

/- ## Training Monitor: scripts/training/monitor_training.py -/

/-- The parsed metrics record; every field starts as the placeholder and
`global_step` is only added when parsed. -/
structure TrainingMetrics where
  epoch : String
  step : String
  total_steps : String
  loss : String
  lr : String
  step_time : String
  grad_norm : String
  last_update : String
  global_step : Option String
deriving DecidableEq

/-- The dict literal at the top of `parse_training_metrics`. -/
def initMetrics : TrainingMetrics :=
  ⟨"N/A", "N/A", "N/A", "N/A", "N/A", "N/A", "N/A", "N/A", none⟩

/-- What one log line contributes: `none` per field when that field is not
set (either because its branch was not taken or because the extraction
raised and the `except: pass` kept the old value). -/
structure MetricsUpdate where
  epoch : Option (List Char)
  step : Option (List Char)
  total_steps : Option (List Char)
  loss : Option (List Char)
  lr : Option (List Char)
  step_time : Option (List Char)
  grad_norm : Option (List Char)
  last_update : Option (List Char)
  global_step : Option (List Char)
deriving DecidableEq

/-- The no-op update. -/
def emptyUpdate : MetricsUpdate :=
  ⟨none, none, none, none, none, none, none, none, none⟩

/-- `line.split('EPOCH:')[1].split()[0]`. -/
def extractEpoch (l : List Char) : Option (List Char) :=
  (segment1 (("EPOCH:").toList) l).bind (fun seg => (pyTokens seg).head?)

/-- `line.split('GLOBAL_STEP:')[1].strip()` guarded by its `in` test. -/
def globalOf (l : List Char) : Option (List Char) :=
  if containsSub (("GLOBAL_STEP:").toList) l then
    (segment1 (("GLOBAL_STEP:").toList) l).map stripSpaces
  else none

/-- The `-- GLOBAL_STEP:` branch: `STEP: a/b` sets step and total_steps
(a ValueError in the two-way unpack aborts the whole `try`, so then not even
`global_step` is set). -/
def stepUpdate (l : List Char) : MetricsUpdate :=
  if containsSub (("STEP:").toList) l then
    match segment1 (("STEP:").toList) l with
    | some seg =>
      let sp := stripSpaces (beforeFirst (("--").toList) seg)
      if sp.any (fun c => c == '/') then
        match splitOnChar '/' sp with
        | [a, b] =>
          { emptyUpdate with
            step := some (stripSpaces a)
            total_steps := some (stripSpaces b)
            global_step := globalOf l }
        | _ => emptyUpdate
      else { emptyUpdate with global_step := globalOf l }
    | none => { emptyUpdate with global_step := globalOf l }
  else { emptyUpdate with global_step := globalOf l }

/-- The `| >` branch: `loss:`, `current_lr:`, `step_time:`, `grad_norm:`
prefixes of the segment after `| >`. -/
def metricUpdate (l : List Char) : MetricsUpdate :=
  match segment1 (("| >").toList) l with
  | none => emptyUpdate
  | some seg =>
    let p := stripSpaces seg
    if (("loss:").toList).isPrefixOf p then
      { emptyUpdate with loss := (segment1 [':'] p).bind (fun s => (pyTokens s).head?) }
    else if (("current_lr:").toList).isPrefixOf p then
      { emptyUpdate with lr := (segment1 [':'] p).map stripSpaces }
    else if (("step_time:").toList).isPrefixOf p then
      { emptyUpdate with step_time :=
          ((segment1 [':'] p).bind (fun s => (pyTokens s).head?)).map (fun v => v ++ ['s']) }
    else if (("grad_norm:").toList).isPrefixOf p then
      { emptyUpdate with grad_norm := (segment1 [':'] p).bind (fun s => (pyTokens s).head?) }
    else emptyUpdate

/-- `line.split('TRAINING (')[1].split(')')[0]` then `.split()[1]`. -/
def extractTimestamp (l : List Char) : Option (List Char) :=
  (segment1 (("TRAINING (").toList) l).bind (fun seg =>
    ((pyTokens (beforeFirst [')'] seg)).drop 1).head?)

/-- The if/elif chain of `parse_training_metrics` on one stripped line. -/
def lineUpdate (l : List Char) : MetricsUpdate :=
  if containsSub (("EPOCH:").toList) l then
    { emptyUpdate with epoch := extractEpoch l }
  else if containsSub (("-- GLOBAL_STEP:").toList) l then stepUpdate l
  else if containsSub (("| >").toList) l && containsSub [':'] l then metricUpdate l
  else if containsSub (("TRAINING (").toList) l then
    { emptyUpdate with last_update := extractTimestamp l }
  else emptyUpdate

/-- Apply one line's contribution to the metrics dict. -/
def applyUpdate (m : TrainingMetrics) (u : MetricsUpdate) : TrainingMetrics :=
  { epoch := (u.epoch.map String.mk).getD m.epoch
  , step := (u.step.map String.mk).getD m.step
  , total_steps := (u.total_steps.map String.mk).getD m.total_steps
  , loss := (u.loss.map String.mk).getD m.loss
  , lr := (u.lr.map String.mk).getD m.lr
  , step_time := (u.step_time.map String.mk).getD m.step_time
  , grad_norm := (u.grad_norm.map String.mk).getD m.grad_norm
  , last_update := (u.last_update.map String.mk).getD m.last_update
  , global_step := match u.global_step with
      | some v => some (String.mk v)
      | none => m.global_step }

/-- `parse_training_metrics(log_content)`: split on newlines, strip each
line, run the if/elif chain, never raise. -/
def parse_training_metrics (log_content : String) : TrainingMetrics :=
  (splitOnChar '\n' log_content.toList).foldl
    (fun m line => applyUpdate m (lineUpdate (stripSpaces line))) initMetrics

/- ## Helper lemmas -/

theorem batch_synthesize_loop_spec (bs : List Bool) : ∀ (i : Nat),
    (batch_synthesize_loop i bs).1 = bs.length ∧
    (batch_synthesize_loop i bs).2 =
      ((List.range' i bs.length).zip bs).filterMap
        (fun p => if p.2 then some p.1 else none) := by
  induction bs with
  | nil => intro i; simp [batch_synthesize_loop]
  | cons b rest ih =>
    intro i
    have h := ih (i + 1)
    simp [batch_synthesize_loop, List.range'_succ, h.1, h.2]
    cases b <;> simp

theorem test_model_synthesis_run_spec (bs : List Bool) :
    (test_model_synthesis_run bs).1 = bs.all (fun b => b) ∧
    (test_model_synthesis_run bs).2.1 =
      (if bs.all (fun b => b) then bs.length
       else (bs.takeWhile (fun b => b)).length + 1) ∧
    (test_model_synthesis_run bs).2.2 = (bs.takeWhile (fun b => b)).length := by
  induction bs with
  | nil => simp [test_model_synthesis_run]
  | cons b rest ih =>
    cases b with
    | false => simp [test_model_synthesis_run]
    | true =>
      simp only [test_model_synthesis_run, ih.1, ih.2.1, ih.2.2, List.all_cons,
        List.takeWhile_cons, Bool.true_and, if_true]
      by_cases h : rest.all (fun b => b) <;> simp [h, Nat.add_comm]

/- ## Claim theorems -/

/-- Claim C1: the Data Validator's verdict is ready exactly when the metadata
has at least 50 rows and the row count matches the audio file count; fewer
than 50 rows records the insufficient-data error, 50-99 rows records only the
limited-data warning, a count mismatch records a hard error, and the verdict
is the emptiness of the issue list, so warnings never change it. -/
theorem validator_readiness_characterization
    (df : List (String × String)) (wavCount : Nat) :
    ((validate_training_readiness df wavCount).ready = true ↔
      (50 ≤ df.length ∧ wavCount = df.length)) ∧
    ("Insufficient data" ∈ (validate_training_readiness df wavCount).issues ↔
      df.length < 50) ∧
    ("Limited data" ∈ (validate_training_readiness df wavCount).warnings ↔
      (50 ≤ df.length ∧ df.length < 100)) ∧
    ("Mismatch" ∈ (validate_training_readiness df wavCount).issues ↔
      wavCount ≠ df.length) ∧
    ((validate_training_readiness df wavCount).ready =
      (validate_training_readiness df wavCount).issues.isEmpty) := by
  unfold validate_training_readiness
  by_cases h1 : df.length < 50 <;> by_cases h2 : wavCount = df.length <;>
    by_cases h3 : df.length < 100 <;>
      simp_all

/-- Claim C2: the Training Launcher reports success exactly when the trainer
subprocess exits with code zero (interruption and exceptions yield false),
and the script's exit status is 0 exactly when validation passed and the run
succeeded. -/
theorem launcher_success_iff_exit_zero
    (envOk dataOk dirsOk : Bool) (o : ProcOutcome) :
    (start_maximum_quality_training o = true ↔ o = ProcOutcome.exited 0) ∧
    (launcher_exit envOk dataOk dirsOk o = 0 ↔
      (envOk = true ∧ dataOk = true ∧ dirsOk = true ∧ o = ProcOutcome.exited 0)) := by
  cases o <;> cases envOk <;> cases dataOk <;> cases dirsOk <;>
    simp [start_maximum_quality_training, launcher_main, launcher_exit]

/-- Claim C3, counterexample: in test_model.py's `test_model_synthesis` the
try/except wraps the whole loop, so with a batch of two texts whose first
synthesis raises, only 1 text is attempted, not the 2 the claim requires,
and the second text gets no output file. -/
theorem inference_driver_counterexample :
    (test_model_synthesis_run [false, true]).2.1 = 1 ∧ (1 : Nat) ≠ 2 ∧
    (test_model_synthesis_run [false, true]).2.2 = 0 := by decide

/-- Claim C3, amended: in `batch_synthesize` (batch_synthesis_mac.py) every
text of the batch is attempted regardless of earlier failures and exactly
the successful texts get output files, while in `test_model_synthesis`
(test_model.py) the first failing text ends the loop: texts after it are not
attempted, and the function returns true only when every text succeeded. -/
theorem inference_driver_isolation (bs : List Bool) :
    (batch_synthesize_run bs).1 = bs.length ∧
    (batch_synthesize_run bs).2 =
      ((List.range' 1 bs.length).zip bs).filterMap
        (fun p => if p.2 then some p.1 else none) ∧
    (test_model_synthesis_run bs).1 = bs.all (fun b => b) ∧
    (test_model_synthesis_run bs).2.1 =
      (if bs.all (fun b => b) then bs.length
       else (bs.takeWhile (fun b => b)).length + 1) ∧
    (test_model_synthesis_run bs).2.2 = (bs.takeWhile (fun b => b)).length := by
  refine ⟨(batch_synthesize_loop_spec bs 1).1, (batch_synthesize_loop_spec bs 1).2,
    (test_model_synthesis_run_spec bs).1, (test_model_synthesis_run_spec bs).2.1,
    (test_model_synthesis_run_spec bs).2.2⟩

/-- Claim C10: `process_audio_files` completes normally on any nonempty file
list (even if every file fails), but on an empty raw audio directory the
final summary divides by the zero file count and raises ZeroDivisionError. -/
theorem process_audio_files_zero_division :
    (∀ files : List (String × Option (List ℚ)), files ≠ [] →
      (process_audio_files files).isOk = true) ∧
    process_audio_files [] = Except.error "ZeroDivisionError" := by
  constructor
  · intro files h
    unfold process_audio_files
    rw [if_neg (by simpa using h)]
    rfl
  · rfl

/-- Claim C10, witness: a singleton batch whose only file fails still
completes, and the empty batch raises. -/
theorem process_audio_files_zero_division_witness :
    (process_audio_files [(("a" : String), (none : Option (List ℚ)))]).isOk = true ∧
    process_audio_files [] = Except.error "ZeroDivisionError" :=
  ⟨process_audio_files_zero_division.1 _ (by simp),
   process_audio_files_zero_division.2⟩

theorem peak_cons (x : ℚ) (t : List ℚ) : peak (x :: t) = max |x| (peak t) := rfl

theorem peak_nonneg (a : List ℚ) : 0 ≤ peak a := by
  induction a with
  | nil => simp [peak]
  | cons x t ih => rw [peak_cons]; exact ih.trans (le_max_right _ _)

theorem peak_map_mul (a : List ℚ) (c : ℚ) (hc : 0 ≤ c) :
    peak (a.map (fun x => x * c)) = c * peak a := by
  induction a with
  | nil => simp [peak]
  | cons x t ih =>
    rw [List.map_cons, peak_cons, peak_cons, ih, abs_mul, abs_of_nonneg hc,
      mul_comm |x| c, mul_max_of_nonneg _ _ hc]

theorem peak_all_zero (a : List ℚ) (h : ∀ x ∈ a, x = 0) : peak a = 0 := by
  induction a with
  | nil => simp [peak]
  | cons x t ih =>
    rw [peak_cons, h x (List.mem_cons_self x t), ih (fun y hy => h y (List.mem_cons_of_mem x hy))]
    simp

theorem normalize_peak_target (audio : List ℚ) (h : 0 < peak audio) :
    peak (normalize_peak audio) = 707 / 1000 := by
  unfold normalize_peak
  rw [if_pos h, peak_map_mul _ _ (div_nonneg (by norm_num) h.le),
    div_mul_cancel₀ _ (ne_of_gt h)]

theorem normalize_peak_zero (audio : List ℚ) (h : peak audio = 0) :
    normalize_peak audio = audio := by
  unfold normalize_peak
  rw [if_neg (by rw [h]; exact lt_irrefl 0)]

/-- Claim C4: every successfully processed waveform is written at the fixed
22050 Hz target rate with peak at or below 0.707; a positive-peak waveform
is rescaled so its peak is exactly 0.707, and an all-zero waveform is
written unchanged with peak 0. -/
theorem audio_preprocessor_output_spec (audio : List ℚ) (out : ProcessedAudio)
    (h : process_one audio = some out) :
    out.sampleRate = 22050 ∧
    peak out.samples ≤ 707 / 1000 ∧
    (0 < peak audio → peak out.samples = 707 / 1000) ∧
    ((∀ x ∈ audio, x = 0) → out.samples = audio ∧ peak out.samples = 0) := by
  unfold process_one at h
  split at h
  · exact absurd h (by simp)
  · have hout : out = ⟨normalize_peak audio, target_sample_rate⟩ := by
      exact (Option.some.injEq _ _ ▸ h).symm
    subst hout
    refine ⟨rfl, ?_, fun hp => normalize_peak_target audio hp, fun hz => ?_⟩
    · by_cases hp : 0 < peak audio
      · exact le_of_eq (normalize_peak_target audio hp)
      · have h0 : peak audio = 0 := le_antisymm (not_lt.mp hp) (peak_nonneg audio)
        rw [normalize_peak_zero audio h0]
        rw [h0]
        norm_num
    · have h0 : peak audio = 0 := peak_all_zero audio hz
      rw [normalize_peak_zero audio h0]
      exact ⟨rfl, h0⟩

/-- Claim C4, witness: the one-sample waveform with value 1 is rescaled to
peak exactly 0.707 and written at 22050 Hz. -/
theorem audio_preprocessor_output_spec_witness :
    peak (normalize_peak [(1 : ℚ)]) = 707 / 1000 ∧
    (⟨normalize_peak [(1 : ℚ)], target_sample_rate⟩ : ProcessedAudio).sampleRate = 22050 :=
  have h := audio_preprocessor_output_spec [(1 : ℚ)]
    ⟨normalize_peak [(1 : ℚ)], target_sample_rate⟩ rfl
  ⟨h.2.2.1 (by norm_num [peak]), h.1⟩

/-- Claim C5: a file whose processing raises contributes no output and does
not stop the batch (the loop over the remaining files is unaffected), and a
file whose processing succeeds contributes exactly its own output file. -/
theorem audio_batch_isolation (pre post : List (String × Option (List ℚ)))
    (name : String) (a : List ℚ) (out : ProcessedAudio) :
    process_audio_loop (pre ++ (name, none) :: post) =
      process_audio_loop pre ++ process_audio_loop post ∧
    (process_one a = some out →
      process_audio_loop ((name, some a) :: post) =
        (name, out) :: process_audio_loop post) := by
  constructor
  · induction pre with
    | nil => simp [process_audio_loop]
    | cons p rest ih =>
      obtain ⟨n, r⟩ := p
      simp only [List.cons_append, process_audio_loop]
      cases h : r.bind process_one <;> simp [h, ih]
  · intro h
    simp [process_audio_loop, h]

/-- Claim C5, witness: a failing file contributes nothing, and a succeeding
one-sample file gets its own output. -/
theorem audio_batch_isolation_witness :
    process_audio_loop ([] ++ (("x" : String), (none : Option (List ℚ))) :: []) =
      process_audio_loop [] ++ process_audio_loop [] ∧
    process_audio_loop [(("x" : String), some [(1 : ℚ)])] =
      (("x" : String), (⟨normalize_peak [(1 : ℚ)], target_sample_rate⟩ : ProcessedAudio)) ::
        process_audio_loop [] :=
  have h := audio_batch_isolation [] [] "x" [(1 : ℚ)]
    ⟨normalize_peak [(1 : ℚ)], target_sample_rate⟩
  ⟨h.1, h.2 rfl⟩

theorem monitor_fold_preserve (f : TrainingMetrics → String)
    (g : MetricsUpdate → Option (List Char))
    (hfg : ∀ m u, g u = none → f (applyUpdate m u) = f m) :
    ∀ (lines : List (List Char)) (m : TrainingMetrics),
      (∀ line ∈ lines, g (lineUpdate (stripSpaces line)) = none) →
      f (lines.foldl (fun acc line => applyUpdate acc (lineUpdate (stripSpaces line))) m)
        = f m := by
  intro lines
  induction lines with
  | nil => intro m _; rfl
  | cons l rest ih =>
    intro m h
    rw [List.foldl_cons, ih _ (fun x hx => h x (List.mem_cons_of_mem l hx))]
    exact hfg m _ (h l (List.mem_cons_self l rest))

/-- Claim C9: `parse_training_metrics` is total on arbitrary log content and
every field whose extraction succeeds on no line keeps the placeholder
value N/A. -/
theorem monitor_parse_defaults (log_content : String) :
    ((∀ line ∈ splitOnChar '\n' log_content.toList,
        (lineUpdate (stripSpaces line)).epoch = none) →
      (parse_training_metrics log_content).epoch = "N/A") ∧
    ((∀ line ∈ splitOnChar '\n' log_content.toList,
        (lineUpdate (stripSpaces line)).step = none) →
      (parse_training_metrics log_content).step = "N/A") ∧
    ((∀ line ∈ splitOnChar '\n' log_content.toList,
        (lineUpdate (stripSpaces line)).total_steps = none) →
      (parse_training_metrics log_content).total_steps = "N/A") ∧
    ((∀ line ∈ splitOnChar '\n' log_content.toList,
        (lineUpdate (stripSpaces line)).loss = none) →
      (parse_training_metrics log_content).loss = "N/A") ∧
    ((∀ line ∈ splitOnChar '\n' log_content.toList,
        (lineUpdate (stripSpaces line)).lr = none) →
      (parse_training_metrics log_content).lr = "N/A") ∧
    ((∀ line ∈ splitOnChar '\n' log_content.toList,
        (lineUpdate (stripSpaces line)).step_time = none) →
      (parse_training_metrics log_content).step_time = "N/A") ∧
    ((∀ line ∈ splitOnChar '\n' log_content.toList,
        (lineUpdate (stripSpaces line)).grad_norm = none) →
      (parse_training_metrics log_content).grad_norm = "N/A") ∧
    ((∀ line ∈ splitOnChar '\n' log_content.toList,
        (lineUpdate (stripSpaces line)).last_update = none) →
      (parse_training_metrics log_content).last_update = "N/A") := by
  refine ⟨fun h => ?_, fun h => ?_, fun h => ?_, fun h => ?_,
    fun h => ?_, fun h => ?_, fun h => ?_, fun h => ?_⟩
  · exact monitor_fold_preserve (fun m => m.epoch) (fun u => u.epoch)
      (fun m u hu => by simp [applyUpdate, hu]) _ initMetrics h
  · exact monitor_fold_preserve (fun m => m.step) (fun u => u.step)
      (fun m u hu => by simp [applyUpdate, hu]) _ initMetrics h
  · exact monitor_fold_preserve (fun m => m.total_steps) (fun u => u.total_steps)
      (fun m u hu => by simp [applyUpdate, hu]) _ initMetrics h
  · exact monitor_fold_preserve (fun m => m.loss) (fun u => u.loss)
      (fun m u hu => by simp [applyUpdate, hu]) _ initMetrics h
  · exact monitor_fold_preserve (fun m => m.lr) (fun u => u.lr)
      (fun m u hu => by simp [applyUpdate, hu]) _ initMetrics h
  · exact monitor_fold_preserve (fun m => m.step_time) (fun u => u.step_time)
      (fun m u hu => by simp [applyUpdate, hu]) _ initMetrics h
  · exact monitor_fold_preserve (fun m => m.grad_norm) (fun u => u.grad_norm)
      (fun m u hu => by simp [applyUpdate, hu]) _ initMetrics h
  · exact monitor_fold_preserve (fun m => m.last_update) (fun u => u.last_update)
      (fun m u hu => by simp [applyUpdate, hu]) _ initMetrics h

/-- Claim C9, witness: on log content matching none of the known line
shapes, parsing completes and every field holds N/A. -/
theorem monitor_parse_defaults_witness :
    (parse_training_metrics "some totally malformed log ...").epoch = "N/A" ∧
    (parse_training_metrics "some totally malformed log ...").step = "N/A" ∧
    (parse_training_metrics "some totally malformed log ...").total_steps = "N/A" ∧
    (parse_training_metrics "some totally malformed log ...").loss = "N/A" ∧
    (parse_training_metrics "some totally malformed log ...").lr = "N/A" ∧
    (parse_training_metrics "some totally malformed log ...").step_time = "N/A" ∧
    (parse_training_metrics "some totally malformed log ...").grad_norm = "N/A" ∧
    (parse_training_metrics "some totally malformed log ...").last_update = "N/A" :=
  have h := monitor_parse_defaults "some totally malformed log ..."
  ⟨h.1 (by decide), h.2.1 (by decide), h.2.2.1 (by decide), h.2.2.2.1 (by decide),
   h.2.2.2.2.1 (by decide), h.2.2.2.2.2.1 (by decide), h.2.2.2.2.2.2.1 (by decide),
   h.2.2.2.2.2.2.2 (by decide)⟩

/-- Claim C7: the Metadata Converter is deterministic: the lines written by
create_metadata.py depend only on the set of audio files (the glob listing
is sorted, so any enumeration order of the same directory contents gives
byte-identical output), and fix_metadata.py output depends only on the
input file's lines. -/
theorem metadata_converter_deterministic
    (entries : List (String × List Char)) (l₁ l₂ : List String)
    (lines₁ lines₂ : List (List Char))
    (hperm : List.Perm l₁ l₂) (hlines : lines₁ = lines₂) :
    createMetadataLines entries l₁ = createMetadataLines entries l₂ ∧
    fixMetadataRows lines₁ = fixMetadataRows lines₂ := by
  constructor
  · unfold createMetadataLines create_metadata_from_json
    have hsort : List.insertionSort (fun a b : String => a ≤ b) l₁ =
        List.insertionSort (fun a b : String => a ≤ b) l₂ :=
      List.eq_of_perm_of_sorted
        (((List.perm_insertionSort _ l₁).trans hperm).trans
          (List.perm_insertionSort _ l₂).symm)
        (List.sorted_insertionSort _ l₁) (List.sorted_insertionSort _ l₂)
    rw [hsort]
  · rw [hlines]

/-- Claim C7, witness: two enumeration orders of the same two audio files
give the same output, and equal input lines give equal output. -/
theorem metadata_converter_deterministic_witness :
    createMetadataLines [] ["b.wav", "a.wav"] = createMetadataLines [] ["a.wav", "b.wav"] ∧
    fixMetadataRows [("a.wav|hi").toList] = fixMetadataRows [("a.wav|hi").toList] :=
  metadata_converter_deterministic [] ["b.wav", "a.wav"] ["a.wav", "b.wav"]
    [("a.wav|hi").toList] [("a.wav|hi").toList]
    (List.Perm.swap "a.wav" "b.wav" []) rfl

theorem isWavStart_append (c : Char) (rest : List Char)
    (h : isWavStart (c :: rest) = false) :
    isWavStart (c :: (rest ++ wavPat)) = false := by
  rcases rest with _ | ⟨x, _ | ⟨y, _ | ⟨z, r⟩⟩⟩ <;> simp_all [isWavStart, wavPat]

theorem stripWavAll_cons_not (c : Char) (rest : List Char)
    (h : isWavStart (c :: rest) = false) :
    stripWavAll (c :: rest) = c :: stripWavAll rest := by
  apply stripWavAll.eq_3
  intro r1 hc hr
  subst hc
  subst hr
  simp [isWavStart] at h

theorem stripWavAll_stem (stem : List Char) (h : hasWavOcc stem = false) :
    stripWavAll (stem ++ wavPat) = stem := by
  induction stem with
  | nil => rfl
  | cons c rest ih =>
    have h2 : isWavStart (c :: rest) = false ∧ hasWavOcc rest = false := by
      simpa [hasWavOcc, Bool.or_eq_false_iff] using h
    rw [List.cons_append, stripWavAll_cons_not c (rest ++ wavPat)
      (isWavStart_append c rest h2.1), ih h2.2]

theorem goodWavName_decomp (l : List Char) (h : goodWavName l = true) :
    l = l.take (l.length - 4) ++ wavPat ∧
    hasWavOcc (l.take (l.length - 4)) = false ∧ 4 ≤ l.length := by
  unfold goodWavName at h
  simp only [Bool.and_eq_true, decide_eq_true_eq, Bool.not_eq_true', beq_iff_eq] at h
  refine ⟨?_, h.2, h.1.1⟩
  conv_lhs => rw [← List.take_append_drop (l.length - 4) l]
  rw [h.1.2]

theorem dropWhile_append_stop (p : Char → Bool) (a b : List Char) (x : Char)
    (hx : p x = false) :
    ∃ s, List.dropWhile p (a ++ x :: b) = s ++ x :: b := by
  induction a with
  | nil => exact ⟨[], by simp [List.dropWhile_cons, hx]⟩
  | cons c rest ih =>
    by_cases hc : p c
    · simpa [List.dropWhile_cons, hc] using ih
    · exact ⟨c :: rest, by simp [List.dropWhile_cons, hc]⟩

theorem stripSpaces_bar_decomp (c : Char) (cs t : List Char)
    (hc : isSpaceChar c = false) :
    ∃ u, stripSpaces ((c :: cs) ++ '|' :: t) = (c :: cs) ++ '|' :: u := by
  unfold stripSpaces
  rw [show (c :: cs) ++ '|' :: t = c :: (cs ++ '|' :: t) from rfl,
    List.dropWhile_cons, if_neg (by simp [hc])]
  have hrev : (c :: (cs ++ '|' :: t)).reverse = t.reverse ++ '|' :: (cs.reverse ++ [c]) := by
    simp
  rw [hrev]
  obtain ⟨s, hs⟩ :=
    dropWhile_append_stop isSpaceChar t.reverse (cs.reverse ++ [c]) '|' (by decide)
  rw [hs]
  refine ⟨s.reverse, ?_⟩
  simp

theorem beforeBar_append (a b : List Char) (ha : '|' ∉ a) :
    beforeBar (a ++ '|' :: b) = a := by
  induction a with
  | nil => simp [beforeBar, List.takeWhile_cons]
  | cons c rest ih =>
    have hc : c ≠ '|' := fun hh => ha (hh ▸ List.mem_cons_self c rest)
    have hrest : '|' ∉ rest := fun hh => ha (List.mem_cons_of_mem c hh)
    simp only [List.cons_append, beforeBar, List.takeWhile_cons] at *
    rw [if_pos (by simp [hc]), ih hrest]

theorem afterBar_append (a b : List Char) (ha : '|' ∉ a) :
    afterBar (a ++ '|' :: b) = b := by
  induction a with
  | nil => simp [afterBar, List.dropWhile_cons]
  | cons c rest ih =>
    have hc : c ≠ '|' := fun hh => ha (hh ▸ List.mem_cons_self c rest)
    have hrest : '|' ∉ rest := fun hh => ha (List.mem_cons_of_mem c hh)
    simp only [List.cons_append, afterBar, List.dropWhile_cons] at *
    rw [if_pos (by simp [hc])]
    exact ih hrest

theorem hasBar_append (a b : List Char) : hasBar (a ++ '|' :: b) = true := by
  simp [hasBar]

theorem fixRow_append (fn t : List Char) (hfn : '|' ∉ fn) :
    fixRow (fn ++ '|' :: t) =
      stripWavAll fn ++ '|' :: (clean_and_normalize_text t
        ++ '|' :: clean_and_normalize_text t) := by
  unfold fixRow
  simp only [beforeBar_append fn t hfn, afterBar_append fn t hfn]
  simp [List.append_assoc]

theorem fixMetadataRows_append (xs ys : List (List Char)) :
    fixMetadataRows (xs ++ ys) = fixMetadataRows xs ++ fixMetadataRows ys := by
  induction xs with
  | nil => rfl
  | cons l rest ih =>
    simp only [List.cons_append, fixMetadataRows]
    by_cases h : hasBar (stripSpaces l) <;> simp [h, ih]

theorem mem_fixMetadataRows (lines : List (List Char)) (row : List Char)
    (h : row ∈ fixMetadataRows lines) :
    ∃ line ∈ lines, hasBar (stripSpaces line) = true ∧
      row = fixRow (stripSpaces line) := by
  induction lines with
  | nil => simp [fixMetadataRows] at h
  | cons l rest ih =>
    simp only [fixMetadataRows] at h
    by_cases hb : hasBar (stripSpaces l)
    · rw [if_pos hb] at h
      rcases List.mem_cons.mp h with h1 | h2
      · exact ⟨l, List.mem_cons_self l rest, hb, h1⟩
      · obtain ⟨x, hx, hx2⟩ := ih h2
        exact ⟨x, List.mem_cons_of_mem l hx, hx2⟩
    · rw [if_neg hb] at h
      obtain ⟨x, hx, hx2⟩ := ih h
      exact ⟨x, List.mem_cons_of_mem l hx, hx2⟩

theorem create_metadata_mem (entries : List (String × List Char))
    (listing : List String) (e : String × List Char)
    (he : e ∈ create_metadata_from_json entries listing) : e.1 ∈ listing := by
  unfold create_metadata_from_json at he
  obtain ⟨fn, hfn, hmap⟩ := List.mem_filterMap.mp he
  obtain ⟨t, ht, hte⟩ := Option.map_eq_some'.mp hmap
  have h1 : e.1 = fn := by rw [← hte]
  rw [h1]
  exact ((List.perm_insertionSort _ listing).mem_iff).mp hfn

theorem simpleChar_not_space (c : Char) (h : simpleChar c = true) :
    isSpaceChar c = false := by
  by_contra hs
  rw [Bool.not_eq_false] at hs
  simp only [isSpaceChar, Bool.or_eq_true, beq_iff_eq] at hs
  rcases hs with ((((h1 | h1) | h1) | h1) | h1) | h1 <;> subst h1 <;>
    exact absurd h (by decide)

theorem simpleChar_ne_bar (c : Char) (h : simpleChar c = true) : c ≠ '|' := by
  intro hc
  subst hc
  exact absurd h (by decide)

/-- Claim C8, counterexample: on the line `a.wav.wav|b  c` the converter
writes `a|b c|b c`: the identifier removes every occurrence of `.wav` (not
only the extension) and the second column is the cleaned text, not the raw
transcript `b  c`. -/
theorem fix_metadata_row_counterexample :
    fixMetadataRows [("a.wav.wav|b  c").toList] = [("a|b c|b c").toList] ∧
    ("a|b c|b c").toList ≠
      ("a.wav").toList ++ '|' :: ("b  c").toList ++ '|' :: ("b c").toList := by
  decide

/-- Claim C8, amended: every input line whose stripped form contains a bar
yields exactly one output row, in place, of the three-column form
`identifier|normalized_text|normalized_text`: the identifier is the filename
with every occurrence of `.wav` removed and both text columns are the
transcript with disallowed characters removed and whitespace collapsed. -/
theorem fix_metadata_row_shape (pre post : List (List Char)) (line fn t : List Char)
    (hsplit : stripSpaces line = fn ++ '|' :: t) (hfn : '|' ∉ fn) :
    fixMetadataRows (pre ++ line :: post) =
      fixMetadataRows pre ++
        (stripWavAll fn ++ '|' :: (clean_and_normalize_text t
          ++ '|' :: clean_and_normalize_text t)) :: fixMetadataRows post := by
  rw [fixMetadataRows_append]
  congr 1
  show fixMetadataRows (line :: post) = _
  simp only [fixMetadataRows]
  rw [hsplit, hasBar_append, if_pos rfl, fixRow_append fn t hfn]

/-- Claim C8, witness: the single line `a.wav|hi` yields exactly the row
described by the amended claim. -/
theorem fix_metadata_row_shape_witness :
    fixMetadataRows ([] ++ ("a.wav|hi").toList :: []) =
      fixMetadataRows [] ++
        (stripWavAll ("a.wav").toList ++ '|' :: (clean_and_normalize_text ("hi").toList
          ++ '|' :: clean_and_normalize_text ("hi").toList)) :: fixMetadataRows [] :=
  fix_metadata_row_shape [] [] (("a.wav|hi").toList) (("a.wav").toList) (("hi").toList)
    (by decide) (by decide)

/-- Claim C6, counterexample: with the audio file `a.wav.wav` (a legal glob
result) the pipeline create_metadata -> fix_metadata produces the row
`a|hi|hi`, and re-suffixing its identifier with `.wav` gives `a.wav`, which
is not among the input audio filenames. -/
theorem metadata_roundtrip_counterexample :
    fixMetadataRows (createMetadataLines [("a.wav.wav", ("hi").toList)] ["a.wav.wav"]) =
      [("a|hi|hi").toList] ∧
    String.mk (beforeBar (("a|hi|hi").toList) ++ wavPat) ∉ ["a.wav.wav"] := by
  decide

/-- Claim C6, amended: when every audio filename is made of ordinary
filename characters and contains exactly one occurrence of `.wav`, at the
end, every normalized output row's identifier, re-suffixed with `.wav`,
matches an existing input audio filename used to generate it. -/
theorem metadata_roundtrip (entries : List (String × List Char)) (listing : List String)
    (hgood : ∀ fn ∈ listing, simpleName fn.toList = true ∧ goodWavName fn.toList = true)
    (row : List Char) (hrow : row ∈ fixMetadataRows (createMetadataLines entries listing)) :
    String.mk (beforeBar row ++ wavPat) ∈ listing := by
  obtain ⟨line, hline, hbar, hrowEq⟩ := mem_fixMetadataRows _ _ hrow
  unfold createMetadataLines at hline
  obtain ⟨e, he, hlineEq⟩ := List.mem_map.mp hline
  have hfn : e.1 ∈ listing := create_metadata_mem entries listing e he
  obtain ⟨hsimple, hgoodw⟩ := hgood e.1 hfn
  obtain ⟨hsplit, hocc, hlen⟩ := goodWavName_decomp (e.1.toList) hgoodw
  have hallsimple : ∀ x ∈ e.1.toList, simpleChar x = true := by
    simpa [simpleName, List.all_eq_true] using hsimple
  have hnobar : '|' ∉ e.1.toList := fun hmem =>
    simpleChar_ne_bar '|' (hallsimple _ hmem) rfl
  obtain ⟨c, cs, hcc⟩ : ∃ c cs, e.1.toList = c :: cs := by
    cases hl : e.1.toList with
    | nil => rw [hl] at hlen; simp at hlen
    | cons c cs => exact ⟨c, cs, rfl⟩
  have hcspace : isSpaceChar c = false :=
    simpleChar_not_space c (hallsimple c (by rw [hcc]; exact List.mem_cons_self _ _))
  obtain ⟨u, hu⟩ := stripSpaces_bar_decomp c cs e.2 hcspace
  have hrow2 : row = stripWavAll e.1.toList ++ '|' :: (clean_and_normalize_text u
      ++ '|' :: clean_and_normalize_text u) := by
    rw [hrowEq, ← hlineEq, hcc, hu, fixRow_append (c :: cs) u (hcc ▸ hnobar)]
  have hswa : stripWavAll e.1.toList = e.1.toList.take (e.1.toList.length - 4) := by
    conv_lhs => rw [hsplit]
    exact stripWavAll_stem _ hocc
  have hnobar2 : '|' ∉ stripWavAll e.1.toList := by
    rw [hswa]
    intro hmem
    exact hnobar (List.mem_of_mem_take hmem)
  have hbb : beforeBar row = stripWavAll e.1.toList := by
    rw [hrow2]
    exact beforeBar_append (stripWavAll e.1.toList)
      (clean_and_normalize_text u ++ '|' :: clean_and_normalize_text u) hnobar2
  have hfinal : beforeBar row ++ wavPat = e.1.toList := by
    rw [hbb, hswa, ← hsplit]
  rw [hfinal]
  have hmk : String.mk e.1.toList = e.1 := rfl
  rw [hmk]
  exact hfn

/-- Claim C6, witness: with the single well-formed audio file `a.wav`, the
pipeline's only row has identifier `a` and `a.wav` is in the listing. -/
theorem metadata_roundtrip_witness :
    String.mk (beforeBar (("a|hi|hi").toList) ++ wavPat) ∈ ["a.wav"] :=
  metadata_roundtrip [("a.wav", ("hi").toList)] ["a.wav"] (by decide)
    (("a|hi|hi").toList) (by decide)
